import Mathlib

/-!
# Verification of the `async::Promise` settlement state machine (promise.h)

Shallow embedding of the promise library in `src/promise.h` together with the
demonstration chain of the driver (`main`).

Modelling conventions:

* A C++ `std::shared_ptr<State<T...>>` is modelled as an index into an explicit
  heap (`Exec.heap`).  The variadic value bundle `std::tuple<T...>` is modelled
  as a `Bundle` (a list of `Val`), and the error type
  `SException = std::shared_ptr<std::exception>` as `Option Err` (with `none`
  for a null pointer); the error payload is abstracted to its description
  string, as the spec treats it.
* Moving a bundle / error out of a `State` (`std::move(_value)`,
  `std::move(_e)`) is modelled by leaving `none` behind: the moved-from
  payload is absent.
* A `Runnable<T...>*` continuation is modelled by `Runnable`: the `Resolver`
  subclass holds one of the success-side closures the library creates
  (`ResolverFunc`), the `Rejecter` subclass one of the failure-side closures
  (`RejecterFunc`).  `new` allocation identity is modelled by the `Nat` id
  carried by each `Runnable`; `delete` appends that id to `Exec.freed`.
* User-supplied continuations (the lambdas given to `Then` / `Exception`) are
  modelled by environments `FEnv` / `GEnv` mapping a function id and the
  argument to the settlement of the promise the lambda returns (`Outcome`),
  or to `none` when an `assert` inside the lambda fires.  Each invocation of
  a user continuation is recorded in the event log `Exec.log`.
* Dispatch is given a fuel bound (the C++ call stack).  A computation result
  (`DRes`) distinguishes normal termination (`ok`), reaching one of the two
  library `assert(0)` branches (`Resolver::SetException` /
  `Rejecter::SetValue`, result `trap`), an assertion failure inside a
  user-supplied continuation (`uabort`), and running out of fuel or
  dispatching a moved-from bundle (`stuck`).
-/

namespace PromiseSpec

/-- One element of a value bundle (the demo uses `int` and `std::string`). -/
inductive Val where
  | ival (n : Int)
  | sval (s : String)
deriving DecidableEq, Repr

/-- A value bundle: models `std::tuple<T...>`. -/
abbrev Bundle := List Val

/-- The error payload, abstracted to its description (`what()`). -/
abbrev Err := String

/-- C++ `enum class status` of promise.h. -/
inductive Status where
  | pending
  | fulfilled
  | rejected
deriving DecidableEq, Repr

/-- The settlement of the promise returned by a user continuation, as observed
by the adapter that inspects `r.GetStatus()` / `r.GetValue()` /
`r.GetException()`. -/
inductive Outcome where
  | fulfilled (v : Bundle)
  | rejected (e : Option Err)
  | pending
deriving DecidableEq, Repr

/-- Observable events: invocations of user-supplied continuations. -/
inductive Event where
  | thenRun (fid : Nat) (v : Bundle)
  | excRun (gid : Nat) (e : Option Err)
  | finallyRun (hid : Nat) (e : Option Err)
  | doneRun (uid : Nat) (v : Bundle)
  | failRun (uid : Nat) (e : Option Err)
deriving DecidableEq, Repr

/-- The success-side closures the library wraps in a `Resolver`:

* `thenDone fid j` — the `done` lambda of `Promise::Then`, capturing user
  continuation `fid` and the new stage `j` (the captured `Deffered $`);
* `finallyDone hid` — the `done` lambda of `Promise::Finally`, which calls the
  terminal continuation `hid` with a null error;
* `userDone uid` — an arbitrary external success continuation (used to state
  claims about the `State` primitive itself). -/
inductive ResolverFunc where
  | thenDone (fid : Nat) (j : Nat)
  | finallyDone (hid : Nat)
  | userDone (uid : Nat)
deriving DecidableEq, Repr

/-- The failure-side closures the library wraps in a `Rejecter`:

* `thenFail j` — the `fail` lambda of `Promise::Then`: forwards the error to
  the new stage `j` unchanged;
* `excFail gid j` — the `fail` lambda of `Promise::Exception`, capturing user
  continuation `gid` and the new stage `j`;
* `finallyFail hid` — the terminal continuation itself, as moved into the
  `Rejecter` by `Promise::Finally`;
* `userFail uid` — an arbitrary external failure continuation. -/
inductive RejecterFunc where
  | thenFail (j : Nat)
  | excFail (gid : Nat) (j : Nat)
  | finallyFail (hid : Nat)
  | userFail (uid : Nat)
deriving DecidableEq, Repr

/-- A `Runnable<T...>*`: either a `Resolver` or a `Rejecter`, tagged with its
allocation id. -/
inductive Runnable where
  | resolver (rid : Nat) (f : ResolverFunc)
  | rejecter (rid : Nat) (f : RejecterFunc)
deriving DecidableEq, Repr

/-- Allocation id of a `Runnable`. -/
def Runnable.rid : Runnable → Nat
  | .resolver n _ => n
  | .rejecter n _ => n

/-- Whether a `Runnable` is a `Resolver`. -/
def Runnable.isResolver : Runnable → Bool
  | .resolver _ _ => true
  | .rejecter _ _ => false

/-- Whether a `Runnable` is a `Rejecter`. -/
def Runnable.isRejecter : Runnable → Bool
  | .resolver _ _ => false
  | .rejecter _ _ => true

/-- C++ `class State` of promise.h: status, the two continuation slots, the value
bundle and the error.  `value = none` models a default-constructed or
moved-from `_value`; `e = none` models a null `_e`. -/
structure State where
  st : Status := Status.pending
  done : Option Runnable := none
  fail : Option Runnable := none
  value : Option Bundle := none
  e : Option Err := none
deriving DecidableEq, Repr

/-- The execution state: the heap of `State` records, the log of user
continuation invocations, the ids of `delete`d runnables, and the next fresh
allocation id. -/
structure Exec where
  heap : List State := []
  log : List Event := []
  freed : List Nat := []
  nextId : Nat := 0
deriving DecidableEq, Repr

/-- Read `heap[i]` (a dereference of the shared state pointer). -/
def Exec.getS (ex : Exec) (i : Nat) : State := ex.heap.getD i {}

/-- Write `heap[i]`. -/
def Exec.setS (ex : Exec) (i : Nat) (s : State) : Exec :=
  { ex with heap := ex.heap.set i s }

/-- Append an event to the log. -/
def Exec.logEv (ex : Exec) (ev : Event) : Exec :=
  { ex with log := ex.log ++ [ev] }

/-- Environment of user continuations passed to `Then` (bundle to the
settlement of the returned promise; `none` models a failed `assert` inside
the continuation body). -/
abbrev FEnv := Nat → Bundle → Option Outcome

/-- Environment of user continuations passed to `Exception`. -/
abbrev GEnv := Nat → Option Err → Option Outcome

/-- Result of running a library operation. -/
inductive DRes where
  | ok (ex : Exec)
  | trap
  | uabort
  | stuck
deriving DecidableEq, Repr

/-- Sequencing of library operations. -/
def DRes.bind (r : DRes) (f : Exec → DRes) : DRes :=
  match r with
  | .ok ex => f ex
  | .trap => .trap
  | .uabort => .uabort
  | .stuck => .stuck

/-- C++ `State::get_value`: sets `_st = pending` and moves the bundle out.
Returns the moved bundle together with the consumed state. -/
def State.get_value (s : State) : Option Bundle × State :=
  (s.value, { s with st := Status.pending, value := none })

/-- C++ `State::get_exception`: sets `_st = pending` and moves the error out. -/
def State.get_exception (s : State) : Option Err × State :=
  (s.e, { s with st := Status.pending, e := none })

/-- A call within the settlement/dispatch recursion:

* `setV i v` — `State::SetValue` on `heap[i]`;
* `setE i e` — `State::SetException` on `heap[i]`;
* `runV r v` — the virtual call `r->SetValue(v)`;
* `runE r e` — the virtual call `r->SetException(e)`;
* `resV f v` — the body of the success-side closure `f` applied to `v`;
* `rejE f e` — the body of the failure-side closure `f` applied to `e`. -/
inductive Call where
  | setV (i : Nat) (v : Bundle)
  | setE (i : Nat) (e : Option Err)
  | runV (r : Runnable) (v : Bundle)
  | runE (r : Runnable) (e : Option Err)
  | resV (f : ResolverFunc) (v : Bundle)
  | rejE (f : RejecterFunc) (e : Option Err)
deriving DecidableEq, Repr

/-- The settlement/dispatch recursion of promise.h, as one fueled step
function (fuel models the C++ call stack; each nested call costs one unit).

* `setV` is `State::SetValue`: store status `fulfilled` and the bundle; if a
  `_done` continuation is registered, perform the consuming read
  `get_value()` (status back to pending, bundle moved out) and dispatch
  `_done->SetValue` with it.  Dispatching a moved-from bundle is `stuck`.
* `setE` is `State::SetException`: store status `rejected` and the error; if
  a `_fail` continuation is registered, perform the consuming read
  `get_exception()` and dispatch `_fail->SetException` with it.
* `runV` is `Runnable::SetValue`: `Resolver::SetValue` applies the stored
  closure; `Rejecter::SetValue` is `assert(0)` (`trap`).
* `runE` is `Runnable::SetException`: `Rejecter::SetException` applies the
  stored closure; `Resolver::SetException` is `assert(0)` (`trap`).
* `resV` runs a success-side closure: `thenDone` invokes the user
  continuation (`uabort` on an assertion failure inside it) and forwards the
  settlement of the promise it returned to the captured stage `j`;
  `finallyDone` calls the terminal continuation with a null error;
  `userDone` records the invocation of an external continuation.
* `rejE` runs a failure-side closure: `thenFail` forwards the error to stage
  `j` unchanged; `excFail` invokes the user continuation and forwards the
  settlement of its returned promise; `finallyFail` calls the terminal
  continuation with the error; `userFail` records the invocation. -/
def step (φ : FEnv) (γ : GEnv) : Nat → Call → Exec → DRes
  | 0, _, _ => .stuck
  | Nat.succ fuel, Call.setV i v, ex =>
    let s := ex.getS i
    let s1 := { s with st := Status.fulfilled, value := some v }
    match s1.done with
    | some d =>
      let gv := State.get_value s1
      match gv.1 with
      | some w => step φ γ fuel (Call.runV d w) (ex.setS i gv.2)
      | none => .stuck
    | none => .ok (ex.setS i s1)
  | Nat.succ fuel, Call.setE i e, ex =>
    let s := ex.getS i
    let s1 := { s with st := Status.rejected, e := e }
    match s1.fail with
    | some f =>
      let ge := State.get_exception s1
      step φ γ fuel (Call.runE f ge.1) (ex.setS i ge.2)
    | none => .ok (ex.setS i s1)
  | Nat.succ fuel, Call.runV r v, ex =>
    match r with
    | .resolver _ f => step φ γ fuel (Call.resV f v) ex
    | .rejecter _ _ => .trap
  | Nat.succ fuel, Call.runE r e, ex =>
    match r with
    | .resolver _ _ => .trap
    | .rejecter _ f => step φ γ fuel (Call.rejE f e) ex
  | Nat.succ fuel, Call.resV f v, ex =>
    match f with
    | .thenDone fid j =>
      let ex1 := ex.logEv (Event.thenRun fid v)
      match φ fid v with
      | none => .uabort
      | some (.fulfilled w) => step φ γ fuel (Call.setV j w) ex1
      | some (.rejected e) => step φ γ fuel (Call.setE j e) ex1
      | some .pending => .ok ex1
    | .finallyDone hid => .ok (ex.logEv (Event.finallyRun hid none))
    | .userDone uid => .ok (ex.logEv (Event.doneRun uid v))
  | Nat.succ fuel, Call.rejE f e, ex =>
    match f with
    | .thenFail j => step φ γ fuel (Call.setE j e) ex
    | .excFail gid j =>
      let ex1 := ex.logEv (Event.excRun gid e)
      match γ gid e with
      | none => .uabort
      | some (.fulfilled w) => step φ γ fuel (Call.setV j w) ex1
      | some (.rejected e2) => step φ γ fuel (Call.setE j e2) ex1
      | some .pending => .ok ex1
    | .finallyFail hid => .ok (ex.logEv (Event.finallyRun hid e))
    | .userFail uid => .ok (ex.logEv (Event.failRun uid e))

/-- C++ `State::SetValue` on `heap[i]`. -/
def stateSetValue (φ : FEnv) (γ : GEnv) (fuel : Nat) (i : Nat) (v : Bundle)
    (ex : Exec) : DRes := step φ γ fuel (Call.setV i v) ex

/-- C++ `State::SetException` on `heap[i]`. -/
def stateSetException (φ : FEnv) (γ : GEnv) (fuel : Nat) (i : Nat)
    (e : Option Err) (ex : Exec) : DRes := step φ γ fuel (Call.setE i e) ex

/-- The virtual call `Runnable::SetValue`. -/
def runSetValue (φ : FEnv) (γ : GEnv) (fuel : Nat) (r : Runnable) (v : Bundle)
    (ex : Exec) : DRes := step φ γ fuel (Call.runV r v) ex

/-- The virtual call `Runnable::SetException`. -/
def runSetException (φ : FEnv) (γ : GEnv) (fuel : Nat) (r : Runnable)
    (e : Option Err) (ex : Exec) : DRes := step φ γ fuel (Call.runE r e) ex

/-- C++ `State::SetDone` on `heap[i]`: store the success continuation; if the
state is already fulfilled, dispatch immediately with the consuming read. -/
def stateSetDone (φ : FEnv) (γ : GEnv) (fuel : Nat) (i : Nat) (d : Runnable)
    (ex : Exec) : DRes :=
  let s := ex.getS i
  let s1 := { s with done := some d }
  if s1.st = Status.fulfilled then
    let gv := State.get_value s1
    match gv.1 with
    | some w => runSetValue φ γ fuel d w (ex.setS i gv.2)
    | none => .stuck
  else .ok (ex.setS i s1)

/-- C++ `State::SetFail` on `heap[i]`: store the failure continuation; if the
state is already rejected, dispatch immediately with the consuming read. -/
def stateSetFail (φ : FEnv) (γ : GEnv) (fuel : Nat) (i : Nat) (f : Runnable)
    (ex : Exec) : DRes :=
  let s := ex.getS i
  let s1 := { s with fail := some f }
  if s1.st = Status.rejected then
    let ge := State.get_exception s1
    runSetException φ γ fuel f ge.1 (ex.setS i ge.2)
  else .ok (ex.setS i s1)

/-- C++ `State::SetFunc` on `heap[i]`: store both continuations, then dispatch
immediately to whichever matches the current status, if settled. -/
def stateSetFunc (φ : FEnv) (γ : GEnv) (fuel : Nat) (i : Nat)
    (d f : Runnable) (ex : Exec) : DRes :=
  let s := ex.getS i
  let s1 := { s with done := some d, fail := some f }
  match s1.st with
  | Status.fulfilled =>
    let gv := State.get_value s1
    match gv.1 with
    | some w => runSetValue φ γ fuel d w (ex.setS i gv.2)
    | none => .stuck
  | Status.rejected =>
    let ge := State.get_exception s1
    runSetException φ γ fuel f ge.1 (ex.setS i ge.2)
  | Status.pending => .ok (ex.setS i s1)

/-- C++ `State::Reset` on `heap[i]`: `delete _done; delete _fail;` (recording the
freed allocation ids), then return to pending, null both slots and the error.
Note that the source does not touch `_value`. -/
def stateReset (ex : Exec) (i : Nat) : Exec :=
  let s := ex.getS i
  let ex1 := { ex with
    freed := ex.freed ++ (s.done.map Runnable.rid).toList
                      ++ (s.fail.map Runnable.rid).toList }
  ex1.setS i { s with st := Status.pending, done := none, fail := none,
                      e := none }

/-- C++ `State::~State`: the destructor invokes `Reset()`. -/
def stateDestroy (ex : Exec) (i : Nat) : Exec := stateReset ex i

/-!
## The `Deffered` and `Promise` layers

A `Deffered<T...>` / `Promise<T...>` each hold a `shared_ptr<State<T...>>`,
modelled as the heap index of the state they wrap.  Constructing a fresh
`Deffered` (or default `Promise`) appends a default `State` to the heap; its
index is the pre-call heap length.
-/

/-- C++ `Deffered::Deffered` / `Promise::Promise()`:
`_state = std::make_shared<State<T...>>()`.  Returns the updated heap; the
new state's index is `ex.heap.length` before the call. -/
def newState (ex : Exec) : Exec := { ex with heap := ex.heap ++ [{}] }

/-- C++ `Deffered::SetValue`: delegates to `State::SetValue`. -/
def defferedSetValue (φ : FEnv) (γ : GEnv) (fuel : Nat) (i : Nat) (v : Bundle)
    (ex : Exec) : DRes := stateSetValue φ γ fuel i v ex

/-- C++ `Deffered::SetException`: delegates to `State::SetException`. -/
def defferedSetException (φ : FEnv) (γ : GEnv) (fuel : Nat) (i : Nat)
    (e : Option Err) (ex : Exec) : DRes := stateSetException φ γ fuel i e ex

/-- C++ `Promise::GetStatus`: reads `_state->_st`. -/
def promiseGetStatus (ex : Exec) (i : Nat) : Status := (ex.getS i).st

/-- C++ `Promise::GetValue`: the consuming read `_state->get_value()`. -/
def promiseGetValue (ex : Exec) (i : Nat) : Option Bundle × Exec :=
  let gv := State.get_value (ex.getS i)
  (gv.1, ex.setS i gv.2)

/-- C++ `Promise::GetException`: the consuming read `_state->get_exception()`. -/
def promiseGetException (ex : Exec) (i : Nat) : Option Err × Exec :=
  let ge := State.get_exception (ex.getS i)
  (ge.1, ex.setS i ge.2)

/-- C++ `Promise::Then(func)` on the promise wrapping `heap[i]`, with user
continuation `fid`: create the new stage's `Deffered $` (a fresh state at
index `ex.heap.length`), allocate the `done` adapter (a `Resolver` holding
the forwarding lambda) and the `fail` adapter (a `Rejecter` holding the
pass-through lambda), and register both via `SetFunc` on the current state.
The returned promise wraps the fresh state. -/
def promiseThen (φ : FEnv) (γ : GEnv) (fuel : Nat) (i : Nat) (fid : Nat)
    (ex : Exec) : DRes :=
  let j := ex.heap.length
  let ex0 := { newState ex with nextId := ex.nextId + 2 }
  let done : Runnable := .resolver ex.nextId (.thenDone fid j)
  let fail : Runnable := .rejecter (ex.nextId + 1) (.thenFail j)
  stateSetFunc φ γ fuel i done fail ex0

/-- C++ `Promise::Exception(func)` on the promise wrapping `heap[i]`, with user
continuation `gid`: create the new stage's fresh state at `ex.heap.length`,
allocate only the `fail` adapter, and register it via `SetFail` on the
current state (the success side is left unregistered). -/
def promiseException (φ : FEnv) (γ : GEnv) (fuel : Nat) (i : Nat) (gid : Nat)
    (ex : Exec) : DRes :=
  let j := ex.heap.length
  let ex0 := { newState ex with nextId := ex.nextId + 1 }
  let fail : Runnable := .rejecter ex.nextId (.excFail gid j)
  stateSetFail φ γ fuel i fail ex0

/-- C++ `Promise::Finally(func)` on the promise wrapping `heap[i]`, with terminal
continuation `hid`: no new stage; registers a `Resolver` that calls the
continuation with a null error and a `Rejecter` holding the continuation
itself, via `SetFunc`. -/
def promiseFinally (φ : FEnv) (γ : GEnv) (fuel : Nat) (i : Nat) (hid : Nat)
    (ex : Exec) : DRes :=
  let done : Runnable := .resolver ex.nextId (.finallyDone hid)
  let fail : Runnable := .rejecter (ex.nextId + 1) (.finallyFail hid)
  stateSetFunc φ γ fuel i done fail { ex with nextId := ex.nextId + 2 }

/-- C++ `MakeReadyPromise(values...)`: fresh `Deffered`, `SetValue`, return its
promise (the fresh state's index is `ex.heap.length` before the call). -/
def makeReadyPromise (φ : FEnv) (γ : GEnv) (fuel : Nat) (v : Bundle)
    (ex : Exec) : DRes :=
  stateSetValue φ γ fuel ex.heap.length v (newState ex)

/-- C++ `MakeException(e)`: fresh `Deffered`, `SetException`, return its
promise. -/
def makeException (φ : FEnv) (γ : GEnv) (fuel : Nat) (e : Option Err)
    (ex : Exec) : DRes :=
  stateSetException φ γ fuel ex.heap.length e (newState ex)

/-!
## The demonstration chain of `main`

User continuation ids: 1, 2, 3 and 5 are the four `Then` lambdas (in chain
order), 4 is the `Exception` lambda, 6 is the `Finally` lambda.  The
`assert`s inside the lambda bodies are modelled by returning `none`
(= `uabort`) when the received argument differs from the asserted one;
the skipped lambda 3 contains `assert(0)` and therefore always aborts.
-/

/-- The `Then` lambdas of `main`. -/
def demoF : FEnv := fun fid v =>
  match fid with
  | 1 =>
    -- asserts num == 100 && str == "PromiseDemo"; returns ready (100, 200)
    if v = [Val.ival 100, Val.sval "PromiseDemo"] then
      some (Outcome.fulfilled [Val.ival 100, Val.ival 200])
    else none
  | 2 =>
    -- asserts x == 100 && y == 200; returns MakeException("NonExcep")
    if v = [Val.ival 100, Val.ival 200] then
      some (Outcome.rejected (some "NonExcep"))
    else none
  | 3 =>
    -- "should not get here": assert(0)
    none
  | 5 =>
    -- zero-arity Then: returns MakeException("TestString Exception")
    some (Outcome.rejected (some "TestString Exception"))
  | _ => none

/-- The `Exception` lambda of `main`. -/
def demoG : GEnv := fun gid e =>
  match gid with
  | 4 =>
    -- asserts e non-null and what() == "NonExcep"; returns MakeReadyPromise()
    if e = some "NonExcep" then some (Outcome.fulfilled []) else none
  | _ => none

/-- The chain of `main`: the ready promise occupies heap index 0, each
`Then` / `Exception` stage the next index; `Finally` creates no stage. -/
def demoChain : DRes :=
  (makeReadyPromise demoF demoG 9 [Val.ival 100, Val.sval "PromiseDemo"]
      {}).bind fun ex =>
  (promiseThen demoF demoG 9 0 1 ex).bind fun ex =>
  (promiseThen demoF demoG 9 1 2 ex).bind fun ex =>
  (promiseThen demoF demoG 9 2 3 ex).bind fun ex =>
  (promiseException demoF demoG 9 3 4 ex).bind fun ex =>
  (promiseThen demoF demoG 9 4 5 ex).bind fun ex =>
  promiseFinally demoF demoG 9 5 6 ex

/-- The event log of the finished chain, when it ran without any assertion
failure or trap. -/
def demoLog : Option (List Event) :=
  match demoChain with
  | .ok ex => some ex.log
  | _ => none

/-!
## Helper lemmas about the heap
-/

@[simp] theorem getS_setS_self (ex : Exec) (i : Nat) (s : State)
    (h : i < ex.heap.length) : (ex.setS i s).getS i = s := by
  simp [Exec.getS, Exec.setS, List.getD, List.getElem?_set_self', h]

theorem getS_setS_ne (ex : Exec) {i j : Nat} (s : State) (h : i ≠ j) :
    (ex.setS i s).getS j = ex.getS j := by
  simp [Exec.getS, Exec.setS, List.getD, List.getElem?_set_ne h]

@[simp] theorem setS_log (ex : Exec) (i : Nat) (s : State) :
    (ex.setS i s).log = ex.log := rfl

@[simp] theorem setS_freed (ex : Exec) (i : Nat) (s : State) :
    (ex.setS i s).freed = ex.freed := rfl

@[simp] theorem setS_heap_length (ex : Exec) (i : Nat) (s : State) :
    (ex.setS i s).heap.length = ex.heap.length := by
  simp [Exec.setS]

@[simp] theorem getS_newState_fresh (ex : Exec) :
    (newState ex).getS ex.heap.length = {} := by
  simp [Exec.getS, newState, List.getD, List.getElem?_append_right]

theorem getS_newState_lt (ex : Exec) {i : Nat} (h : i < ex.heap.length) :
    (newState ex).getS i = ex.getS i := by
  simp [Exec.getS, newState, List.getD, List.getElem?_append_left h]

@[simp] theorem newState_log (ex : Exec) : (newState ex).log = ex.log := rfl

@[simp] theorem newState_heap_length (ex : Exec) :
    (newState ex).heap.length = ex.heap.length + 1 := by
  simp [newState]

/-- Whether an event is an invocation of `Then` user continuation `fid`. -/
def Event.isThenRun (fid : Nat) : Event → Bool
  | .thenRun f _ => f = fid
  | _ => false

/-- Whether an event is an invocation of terminal continuation `hid`. -/
def Event.isFinallyRun (hid : Nat) : Event → Bool
  | .finallyRun h _ => h = hid
  | _ => false

/-- C1: running the reference chain of `main` — `MakeReadyPromise(100,
"PromiseDemo")`, then `Then` returning ready `(100, 200)`, then `Then`
returning a ready rejection with payload `"NonExcep"`, then a further `Then`,
then `Exception` returning a ready empty success, then a zero-arity `Then`
returning a ready rejection with `"TestString Exception"`, then `Finally` —
finishes without any user assertion failure or library trap, the skipped
`Then`'s body (continuation 3) never executes, the zero-arity `Then`'s body
(continuation 5) executes exactly once, the `Exception` continuation receives
the payload `"NonExcep"`, and `Finally` is invoked exactly once, with a
present error whose description is `"TestString Exception"`. -/
theorem then_chain_end_to_end :
    demoLog = some
      [Event.thenRun 1 [Val.ival 100, Val.sval "PromiseDemo"],
       Event.thenRun 2 [Val.ival 100, Val.ival 200],
       Event.excRun 4 (some "NonExcep"),
       Event.thenRun 5 [],
       Event.finallyRun 6 (some "TestString Exception")] ∧
    (∀ l, demoLog = some l →
      l.countP (Event.isThenRun 3) = 0 ∧
      l.countP (Event.isThenRun 5) = 1 ∧
      Event.excRun 4 (some "NonExcep") ∈ l ∧
      l.countP (Event.isFinallyRun 6) = 1 ∧
      Event.finallyRun 6 (some "TestString Exception") ∈ l) := by
  constructor
  · rfl
  · intro l hl
    rw [show demoLog = some
      [Event.thenRun 1 [Val.ival 100, Val.sval "PromiseDemo"],
       Event.thenRun 2 [Val.ival 100, Val.ival 200],
       Event.excRun 4 (some "NonExcep"),
       Event.thenRun 5 [],
       Event.finallyRun 6 (some "TestString Exception")] from rfl] at hl
    cases hl
    refine ⟨by decide, by decide, by decide, by decide, by decide⟩

/-- Witness for the hypothesis-bearing second conjunct of
`then_chain_end_to_end`: instantiated at the computed log itself. -/
theorem then_chain_end_to_end_witness :
    [Event.thenRun 1 [Val.ival 100, Val.sval "PromiseDemo"],
     Event.thenRun 2 [Val.ival 100, Val.ival 200],
     Event.excRun 4 (some "NonExcep"),
     Event.thenRun 5 [],
     Event.finallyRun 6 (some "TestString Exception")].countP
       (Event.isThenRun 3) = 0 :=
  (then_chain_end_to_end.2 _ rfl).1

/-- C2: for every Settlement State that is settled, reading its value
(`State::get_value`, to which `Promise::GetValue` delegates) or its error
(`State::get_exception` / `Promise::GetException`) exactly once returns the
settled payload and, as a side effect, resets the status to pending and
clears the stored payload (the payload is moved out), so that a second read
without an intervening re-settle observes status pending and an absent
payload.  Stated at both the `State` level and the `Promise` level. -/
theorem single_consumption (s : State) (ex : Exec) (i : Nat) :
    (∀ v : Bundle, s.st = Status.fulfilled → s.value = some v →
      (State.get_value s).1 = some v ∧
      (State.get_value s).2.st = Status.pending ∧
      (State.get_value s).2.value = none ∧
      (State.get_value (State.get_value s).2).1 = none ∧
      (State.get_value (State.get_value s).2).2.st = Status.pending) ∧
    (∀ e : Err, s.st = Status.rejected → s.e = some e →
      (State.get_exception s).1 = some e ∧
      (State.get_exception s).2.st = Status.pending ∧
      (State.get_exception s).2.e = none ∧
      (State.get_exception (State.get_exception s).2).1 = none ∧
      (State.get_exception (State.get_exception s).2).2.st = Status.pending) ∧
    (∀ v : Bundle, i < ex.heap.length →
      (ex.getS i).st = Status.fulfilled → (ex.getS i).value = some v →
      (promiseGetValue ex i).1 = some v ∧
      promiseGetStatus (promiseGetValue ex i).2 i = Status.pending ∧
      (promiseGetValue (promiseGetValue ex i).2 i).1 = none) ∧
    (∀ e : Err, i < ex.heap.length →
      (ex.getS i).st = Status.rejected → (ex.getS i).e = some e →
      (promiseGetException ex i).1 = some e ∧
      promiseGetStatus (promiseGetException ex i).2 i = Status.pending ∧
      (promiseGetException (promiseGetException ex i).2 i).1 = none) := by
  refine ⟨?_, ?_, ?_, ?_⟩
  · intro v _ hv
    simp [State.get_value, hv]
  · intro e _ he
    simp [State.get_exception, he]
  · intro v hi _ hv
    simp [promiseGetValue, promiseGetStatus, State.get_value, hv, hi]
  · intro e hi _ he
    simp [promiseGetException, promiseGetStatus, State.get_exception, he, hi]

/-- A fulfilled state carrying the bundle `(1)`, for witnesses. -/
def wFulfilled : State := { st := Status.fulfilled, value := some [Val.ival 1] }

/-- A one-state heap whose state is rejected with error `"boom"`, for
witnesses. -/
def wRejectedHeap : Exec := { heap := [{ st := Status.rejected, e := some "boom" }] }

/-- Witness for `single_consumption`: a state fulfilled with the bundle
`(1)` and a heap holding a state rejected with error `"boom"`. -/
theorem single_consumption_witness :
    (State.get_value wFulfilled).1 = some [Val.ival 1] ∧
    (promiseGetException wRejectedHeap 0).1 = some "boom" := by
  refine ⟨?_, ?_⟩
  · exact ((single_consumption wFulfilled {} 0).1 [Val.ival 1] rfl rfl).1
  · exact ((single_consumption {} wRejectedHeap 0).2.2.2 "boom"
      (by decide) rfl rfl).1

@[simp] theorem getS_nextId (ex : Exec) (n i : Nat) :
    Exec.getS { ex with nextId := n } i = ex.getS i := rfl

@[simp] theorem getS_logEv (ex : Exec) (ev : Event) (i : Nat) :
    (ex.logEv ev).getS i = ex.getS i := rfl

@[simp] theorem logEv_log (ex : Exec) (ev : Event) :
    (ex.logEv ev).log = ex.log ++ [ev] := rfl

/-- C++ `State::SetValue` on a state with no registered success continuation:
unconditionally stores status `fulfilled` and the bundle (there is no
pending-status check in the source) and dispatches nothing. -/
theorem setValue_no_done (φ : FEnv) (γ : GEnv) (fuel : Nat) (ex : Exec)
    (i : Nat) (v : Bundle) (hdn : (ex.getS i).done = none) :
    stateSetValue φ γ (fuel + 1) i v ex =
      DRes.ok (ex.setS i
        { ex.getS i with st := Status.fulfilled, value := some v }) := by
  cases hgs : ex.getS i with
  | mk st0 d0 f0 v0 e0 =>
    rw [hgs] at hdn
    simp only at hdn
    subst hdn
    unfold stateSetValue
    simp only [step, hgs]

/-- C++ `State::SetException` on a state with no registered failure continuation:
unconditionally stores status `rejected` and the error (no pending-status
check) and dispatches nothing. -/
theorem setException_no_fail (φ : FEnv) (γ : GEnv) (fuel : Nat) (ex : Exec)
    (i : Nat) (e : Option Err) (hfl : (ex.getS i).fail = none) :
    stateSetException φ γ (fuel + 1) i e ex =
      DRes.ok (ex.setS i
        { ex.getS i with st := Status.rejected, e := e }) := by
  cases hgs : ex.getS i with
  | mk st0 d0 f0 v0 e0 =>
    rw [hgs] at hfl
    simp only at hfl
    subst hfl
    unfold stateSetException
    simp only [step, hgs]

/-- C3: for every promise whose stage is rejected with some error payload,
`Then(f)` yields a new stage (the fresh state at index `ex.heap.length`)
that is rejected with the same payload, the user continuation `f` is never
invoked (the log is unchanged), and the antecedent stage is consumed. -/
theorem then_passes_rejection_through (φ : FEnv) (γ : GEnv) (fuel : Nat)
    (ex : Exec) (i fid : Nat) (hi : i < ex.heap.length)
    (hst : (ex.getS i).st = Status.rejected) :
    ∃ ex2, promiseThen φ γ (fuel + 3) i fid ex = DRes.ok ex2 ∧
      (ex2.getS ex.heap.length).st = Status.rejected ∧
      (ex2.getS ex.heap.length).e = (ex.getS i).e ∧
      ex2.log = ex.log ∧
      (ex2.getS i).st = Status.pending := by
  have hne : i ≠ ex.heap.length := Nat.ne_of_lt hi
  cases hgs : ex.getS i with
  | mk st0 d0 f0 v0 e0 =>
    rw [hgs] at hst
    simp only at hst
    subst hst
    have hgs0 : Exec.getS { newState ex with nextId := ex.nextId + 2 } i =
        { st := Status.rejected, done := d0, fail := f0, value := v0,
          e := e0 } := (getS_newState_lt ex hi).trans hgs
    have hrun : promiseThen φ γ (fuel + 3) i fid ex =
        DRes.ok (Exec.setS
          (Exec.setS { newState ex with nextId := ex.nextId + 2 } i
            { st := Status.pending,
              done := some (Runnable.resolver ex.nextId
                (ResolverFunc.thenDone fid ex.heap.length)),
              fail := some (Runnable.rejecter (ex.nextId + 1)
                (RejecterFunc.thenFail ex.heap.length)),
              value := v0, e := none })
          ex.heap.length
          { st := Status.rejected, done := none, fail := none,
            value := none, e := e0 }) := by
      unfold promiseThen stateSetFunc runSetException
      simp only [hgs0, step, State.get_exception, getS_setS_ne _ _ hne,
        getS_nextId, getS_newState_fresh]
    refine ⟨_, hrun, ?_, ?_, ?_, ?_⟩
    · rw [getS_setS_self _ _ _ (by simp)]
    · rw [getS_setS_self _ _ _ (by simp)]
    · simp
    · rw [getS_setS_ne _ _ (Ne.symm hne),
        getS_setS_self _ _ _ (by simp; omega)]

/-- An environment with no user continuations, for witnesses. -/
def noF : FEnv := fun _ _ => none

/-- An environment with no user `Exception` continuations, for witnesses. -/
def noG : GEnv := fun _ _ => none

/-- Witness for `then_passes_rejection_through`: `Then` on the rejected
one-state heap `wRejectedHeap`. -/
theorem then_passes_rejection_through_witness :
    ∃ ex2, promiseThen noF noG (0 + 3) 0 5 wRejectedHeap = DRes.ok ex2 ∧
      (ex2.getS wRejectedHeap.heap.length).st = Status.rejected ∧
      (ex2.getS wRejectedHeap.heap.length).e = (wRejectedHeap.getS 0).e ∧
      ex2.log = wRejectedHeap.log ∧
      (ex2.getS 0).st = Status.pending :=
  then_passes_rejection_through noF noG 0 wRejectedHeap 0 5 (by decide)
    (by decide)

/-- C4: for every promise whose stage is currently fulfilled, `Exception(g)`
yields a new stage (the fresh state at `ex.heap.length`) that stays pending
with no payload and no continuations; the user continuation `g` is never
invoked (the log is unchanged); the antecedent keeps its fulfilled status and
only gains the failure adapter; and a later `SetValue` on the antecedent
(whose success slot is empty, as for every reachable still-fulfilled stage)
still leaves the new stage pending and never invokes `g`: the catch-only
stage is never settled. -/
theorem exception_stalls_on_fulfillment (φ : FEnv) (γ : GEnv) (fuel : Nat)
    (ex : Exec) (i gid : Nat) (hi : i < ex.heap.length)
    (hst : (ex.getS i).st = Status.fulfilled) :
    ∃ ex2, promiseException φ γ fuel i gid ex = DRes.ok ex2 ∧
      ex2.getS ex.heap.length = {} ∧
      ex2.log = ex.log ∧
      (ex2.getS i).st = Status.fulfilled ∧
      (ex2.getS i).fail = some (Runnable.rejecter ex.nextId
        (RejecterFunc.excFail gid ex.heap.length)) ∧
      ((ex.getS i).done = none → ∀ fuel2 v, ∃ ex3,
        stateSetValue φ γ (fuel2 + 1) i v ex2 = DRes.ok ex3 ∧
          ex3.getS ex.heap.length = {} ∧
          ex3.log = ex.log) := by
  have hne : i ≠ ex.heap.length := Nat.ne_of_lt hi
  cases hgs : ex.getS i with
  | mk st0 d0 f0 v0 e0 =>
    rw [hgs] at hst
    simp only at hst
    subst hst
    have hgs0 : Exec.getS { newState ex with nextId := ex.nextId + 1 } i =
        { st := Status.fulfilled, done := d0, fail := f0, value := v0,
          e := e0 } := (getS_newState_lt ex hi).trans hgs
    have hrun : promiseException φ γ fuel i gid ex =
        DRes.ok (Exec.setS { newState ex with nextId := ex.nextId + 1 } i
          { st := Status.fulfilled, done := d0,
            fail := some (Runnable.rejecter ex.nextId
              (RejecterFunc.excFail gid ex.heap.length)),
            value := v0, e := e0 }) := by
      unfold promiseException stateSetFail
      simp only [hgs0]
      rfl
    refine ⟨_, hrun, ?_, ?_, ?_, ?_, ?_⟩
    · rw [getS_setS_ne _ _ hne, getS_nextId, getS_newState_fresh]
    · simp
    · rw [getS_setS_self _ _ _ (by simp; omega)]
    · rw [getS_setS_self _ _ _ (by simp; omega)]
    · intro hdn fuel2 v
      simp only at hdn
      subst hdn
      have hget2 : Exec.getS
          (Exec.setS { newState ex with nextId := ex.nextId + 1 } i
            { st := Status.fulfilled, done := none,
              fail := some (Runnable.rejecter ex.nextId
                (RejecterFunc.excFail gid ex.heap.length)),
              value := v0, e := e0 }) i =
          { st := Status.fulfilled, done := none,
            fail := some (Runnable.rejecter ex.nextId
              (RejecterFunc.excFail gid ex.heap.length)),
            value := v0, e := e0 } :=
        getS_setS_self _ _ _ (by simp; omega)
      refine ⟨_, setValue_no_done φ γ fuel2 _ i v (by rw [hget2]), ?_, ?_⟩
      · rw [getS_setS_ne _ _ hne, getS_setS_ne _ _ hne, getS_nextId,
          getS_newState_fresh]
      · simp

/-- A one-state heap whose state is fulfilled with the bundle
`(100, "X")`, for witnesses. -/
def wFulfilledHeap : Exec :=
  { heap := [{ st := Status.fulfilled,
               value := some [Val.ival 100, Val.sval "X"] }] }

/-- Witness for `exception_stalls_on_fulfillment`: `Exception` on the
fulfilled one-state heap `wFulfilledHeap`. -/
theorem exception_stalls_on_fulfillment_witness :
    ∃ ex2, promiseException noF noG 1 0 4 wFulfilledHeap = DRes.ok ex2 ∧
      ex2.getS wFulfilledHeap.heap.length = {} ∧
      ex2.log = wFulfilledHeap.log ∧
      (ex2.getS 0).st = Status.fulfilled ∧
      (ex2.getS 0).fail = some (Runnable.rejecter wFulfilledHeap.nextId
        (RejecterFunc.excFail 4 wFulfilledHeap.heap.length)) ∧
      ((wFulfilledHeap.getS 0).done = none → ∀ fuel2 v, ∃ ex3,
        stateSetValue noF noG (fuel2 + 1) 0 v ex2 = DRes.ok ex3 ∧
          ex3.getS wFulfilledHeap.heap.length = {} ∧
          ex3.log = wFulfilledHeap.log) :=
  exception_stalls_on_fulfillment noF noG 1 wFulfilledHeap 0 4 (by decide)
    (by decide)

/-!
## Bridging lemmas: the registration operations by current status
-/

/-- C++ `State::SetDone` on a not-yet-fulfilled state: stores the continuation,
no dispatch. -/
theorem setDone_not_fulfilled (φ : FEnv) (γ : GEnv) (fuel : Nat) (ex : Exec)
    (i : Nat) (d : Runnable) (hst : (ex.getS i).st ≠ Status.fulfilled) :
    stateSetDone φ γ fuel i d ex =
      DRes.ok (ex.setS i { ex.getS i with done := some d }) := by
  cases hgs : ex.getS i with
  | mk st0 d0 f0 v0 e0 =>
    rw [hgs] at hst
    simp only at hst
    unfold stateSetDone
    simp only [hgs, if_neg hst]

/-- C++ `State::SetDone` on an already-fulfilled state: stores the continuation,
then dispatches immediately with the consuming read `get_value()`. -/
theorem setDone_fulfilled (φ : FEnv) (γ : GEnv) (fuel : Nat) (ex : Exec)
    (i : Nat) (d : Runnable) (v : Bundle)
    (hst : (ex.getS i).st = Status.fulfilled)
    (hv : (ex.getS i).value = some v) :
    stateSetDone φ γ fuel i d ex =
      runSetValue φ γ fuel d v (ex.setS i
        { ex.getS i with st := Status.pending, done := some d,
                         value := none }) := by
  cases hgs : ex.getS i with
  | mk st0 d0 f0 v0 e0 =>
    rw [hgs] at hst hv
    simp only at hst hv
    subst hst
    subst hv
    unfold stateSetDone
    simp only [hgs, if_pos rfl]
    rfl

/-- C++ `State::SetFail` on a not-yet-rejected state: stores the continuation,
no dispatch. -/
theorem setFail_not_rejected (φ : FEnv) (γ : GEnv) (fuel : Nat) (ex : Exec)
    (i : Nat) (f : Runnable) (hst : (ex.getS i).st ≠ Status.rejected) :
    stateSetFail φ γ fuel i f ex =
      DRes.ok (ex.setS i { ex.getS i with fail := some f }) := by
  cases hgs : ex.getS i with
  | mk st0 d0 f0 v0 e0 =>
    rw [hgs] at hst
    simp only at hst
    unfold stateSetFail
    simp only [hgs, if_neg hst]

/-- C++ `State::SetFail` on an already-rejected state: stores the continuation,
then dispatches immediately with the consuming read `get_exception()`. -/
theorem setFail_rejected (φ : FEnv) (γ : GEnv) (fuel : Nat) (ex : Exec)
    (i : Nat) (f : Runnable) (hst : (ex.getS i).st = Status.rejected) :
    stateSetFail φ γ fuel i f ex =
      runSetException φ γ fuel f ((ex.getS i).e) (ex.setS i
        { ex.getS i with st := Status.pending, fail := some f,
                         e := none }) := by
  cases hgs : ex.getS i with
  | mk st0 d0 f0 v0 e0 =>
    rw [hgs] at hst
    simp only at hst
    subst hst
    unfold stateSetFail
    simp only [hgs, if_pos rfl]
    rfl

/-- C++ `State::SetFunc` on a pending state: stores both continuations, no
dispatch. -/
theorem setFunc_pending (φ : FEnv) (γ : GEnv) (fuel : Nat) (ex : Exec)
    (i : Nat) (d f : Runnable) (hst : (ex.getS i).st = Status.pending) :
    stateSetFunc φ γ fuel i d f ex =
      DRes.ok (ex.setS i
        { ex.getS i with done := some d, fail := some f }) := by
  cases hgs : ex.getS i with
  | mk st0 d0 f0 v0 e0 =>
    rw [hgs] at hst
    simp only at hst
    subst hst
    unfold stateSetFunc
    simp only [hgs]

/-- C++ `State::SetFunc` on a fulfilled state: stores both continuations, then
dispatches the success side with the consuming read. -/
theorem setFunc_fulfilled (φ : FEnv) (γ : GEnv) (fuel : Nat) (ex : Exec)
    (i : Nat) (d f : Runnable) (v : Bundle)
    (hst : (ex.getS i).st = Status.fulfilled)
    (hv : (ex.getS i).value = some v) :
    stateSetFunc φ γ fuel i d f ex =
      runSetValue φ γ fuel d v (ex.setS i
        { ex.getS i with st := Status.pending, done := some d,
                         fail := some f, value := none }) := by
  cases hgs : ex.getS i with
  | mk st0 d0 f0 v0 e0 =>
    rw [hgs] at hst hv
    simp only at hst hv
    subst hst
    subst hv
    unfold stateSetFunc
    simp only [hgs]
    rfl

/-- C++ `State::SetFunc` on a rejected state: stores both continuations, then
dispatches the failure side with the consuming read. -/
theorem setFunc_rejected (φ : FEnv) (γ : GEnv) (fuel : Nat) (ex : Exec)
    (i : Nat) (d f : Runnable) (hst : (ex.getS i).st = Status.rejected) :
    stateSetFunc φ γ fuel i d f ex =
      runSetException φ γ fuel f ((ex.getS i).e) (ex.setS i
        { ex.getS i with st := Status.pending, done := some d,
                         fail := some f, e := none }) := by
  cases hgs : ex.getS i with
  | mk st0 d0 f0 v0 e0 =>
    rw [hgs] at hst
    simp only at hst
    subst hst
    unfold stateSetFunc
    simp only [hgs]
    rfl

/-!
## Bridging lemmas: dispatch of the terminal and external continuations
-/

/-- Dispatching `Finally`'s success adapter invokes the terminal continuation
with a null error, ignoring the bundle. -/
theorem runV_finallyDone (φ : FEnv) (γ : GEnv) (fuel rid hid : Nat)
    (v : Bundle) (ex : Exec) :
    runSetValue φ γ (fuel + 2) (Runnable.resolver rid
      (ResolverFunc.finallyDone hid)) v ex =
      DRes.ok (ex.logEv (Event.finallyRun hid none)) := rfl

/-- Dispatching `Finally`'s failure adapter invokes the terminal continuation
with the error payload. -/
theorem runE_finallyFail (φ : FEnv) (γ : GEnv) (fuel rid hid : Nat)
    (e : Option Err) (ex : Exec) :
    runSetException φ γ (fuel + 2) (Runnable.rejecter rid
      (RejecterFunc.finallyFail hid)) e ex =
      DRes.ok (ex.logEv (Event.finallyRun hid e)) := rfl

/-- Dispatching an external success continuation records its invocation with
the delivered bundle. -/
theorem runV_userDone (φ : FEnv) (γ : GEnv) (fuel rid uid : Nat)
    (v : Bundle) (ex : Exec) :
    runSetValue φ γ (fuel + 2) (Runnable.resolver rid
      (ResolverFunc.userDone uid)) v ex =
      DRes.ok (ex.logEv (Event.doneRun uid v)) := rfl

/-- Dispatching an external failure continuation records its invocation with
the delivered error. -/
theorem runE_userFail (φ : FEnv) (γ : GEnv) (fuel rid uid : Nat)
    (e : Option Err) (ex : Exec) :
    runSetException φ γ (fuel + 2) (Runnable.rejecter rid
      (RejecterFunc.userFail uid)) e ex =
      DRes.ok (ex.logEv (Event.failRun uid e)) := rfl

/-- C++ `State::SetValue` on a state with a registered success continuation:
stores, then dispatches the continuation with the consuming read (the state
it leaves behind is pending with the bundle moved out). -/
theorem setValue_done (φ : FEnv) (γ : GEnv) (fuel : Nat) (ex : Exec)
    (i : Nat) (v : Bundle) (d : Runnable)
    (hdn : (ex.getS i).done = some d) :
    stateSetValue φ γ (fuel + 1) i v ex =
      runSetValue φ γ fuel d v (ex.setS i
        { ex.getS i with st := Status.pending, value := none }) := by
  cases hgs : ex.getS i with
  | mk st0 d0 f0 v0 e0 =>
    rw [hgs] at hdn
    simp only at hdn
    subst hdn
    unfold stateSetValue
    simp only [step, hgs]
    rfl

/-- C++ `State::SetException` on a state with a registered failure continuation:
stores, then dispatches the continuation with the consuming read. -/
theorem setException_fail (φ : FEnv) (γ : GEnv) (fuel : Nat) (ex : Exec)
    (i : Nat) (e : Option Err) (f : Runnable)
    (hfl : (ex.getS i).fail = some f) :
    stateSetException φ γ (fuel + 1) i e ex =
      runSetException φ γ fuel f e (ex.setS i
        { ex.getS i with st := Status.pending, e := none }) := by
  cases hgs : ex.getS i with
  | mk st0 d0 f0 v0 e0 =>
    rw [hgs] at hfl
    simp only at hfl
    subst hfl
    unfold stateSetException
    simp only [step, hgs]
    rfl

/-- C5: for every stage, whether it fulfills or rejects, `Finally(h)` invokes
the terminal continuation `h` exactly once (exactly one invocation event is
appended to the log): with an absent error (`none`), ignoring the value
bundle, when the stage fulfills, and with the error payload itself when the
stage rejects.  Covers both orders: registration on an already-settled stage
(immediate dispatch) and registration on a pending stage followed by a later
settlement (dispatch inside the settling call). -/
theorem finally_always_fires (φ : FEnv) (γ : GEnv) (fuel : Nat) (ex : Exec)
    (i hid : Nat) (hi : i < ex.heap.length) :
    (∀ v, (ex.getS i).st = Status.fulfilled → (ex.getS i).value = some v →
      ∃ ex2, promiseFinally φ γ (fuel + 2) i hid ex = DRes.ok ex2 ∧
        ex2.log = ex.log ++ [Event.finallyRun hid none]) ∧
    ((ex.getS i).st = Status.rejected →
      ∃ ex2, promiseFinally φ γ (fuel + 2) i hid ex = DRes.ok ex2 ∧
        ex2.log = ex.log ++ [Event.finallyRun hid ((ex.getS i).e)]) ∧
    ((ex.getS i).st = Status.pending →
      ∃ ex2, promiseFinally φ γ fuel i hid ex = DRes.ok ex2 ∧
        ex2.log = ex.log ∧
        (∀ fuel2 v, ∃ ex3,
          stateSetValue φ γ (fuel2 + 3) i v ex2 = DRes.ok ex3 ∧
            ex3.log = ex.log ++ [Event.finallyRun hid none]) ∧
        (∀ fuel2 e, ∃ ex3,
          stateSetException φ γ (fuel2 + 3) i e ex2 = DRes.ok ex3 ∧
            ex3.log = ex.log ++ [Event.finallyRun hid e])) := by
  refine ⟨?_, ?_, ?_⟩
  · intro v hst hv
    have h1 := setFunc_fulfilled φ γ (fuel + 2)
      { ex with nextId := ex.nextId + 2 } i
      (Runnable.resolver ex.nextId (ResolverFunc.finallyDone hid))
      (Runnable.rejecter (ex.nextId + 1) (RejecterFunc.finallyFail hid))
      v hst hv
    rw [runV_finallyDone] at h1
    exact ⟨_, h1, by simp⟩
  · intro hst
    have h1 := setFunc_rejected φ γ (fuel + 2)
      { ex with nextId := ex.nextId + 2 } i
      (Runnable.resolver ex.nextId (ResolverFunc.finallyDone hid))
      (Runnable.rejecter (ex.nextId + 1) (RejecterFunc.finallyFail hid))
      hst
    rw [runE_finallyFail] at h1
    exact ⟨_, h1, by simp⟩
  · intro hst
    have h1 := setFunc_pending φ γ fuel
      { ex with nextId := ex.nextId + 2 } i
      (Runnable.resolver ex.nextId (ResolverFunc.finallyDone hid))
      (Runnable.rejecter (ex.nextId + 1) (RejecterFunc.finallyFail hid))
      hst
    refine ⟨_, h1, by simp, ?_, ?_⟩
    · intro fuel2 v
      have h2 := setValue_done φ γ (fuel2 + 2)
        (Exec.setS { ex with nextId := ex.nextId + 2 } i
          { ex.getS i with
            done := some (Runnable.resolver ex.nextId
              (ResolverFunc.finallyDone hid)),
            fail := some (Runnable.rejecter (ex.nextId + 1)
              (RejecterFunc.finallyFail hid)) }) i v
        (Runnable.resolver ex.nextId (ResolverFunc.finallyDone hid))
        (by rw [getS_setS_self _ _ _ (by simp [hi])])
      rw [runV_finallyDone] at h2
      exact ⟨_, h2, by simp⟩
    · intro fuel2 e
      have h2 := setException_fail φ γ (fuel2 + 2)
        (Exec.setS { ex with nextId := ex.nextId + 2 } i
          { ex.getS i with
            done := some (Runnable.resolver ex.nextId
              (ResolverFunc.finallyDone hid)),
            fail := some (Runnable.rejecter (ex.nextId + 1)
              (RejecterFunc.finallyFail hid)) }) i e
        (Runnable.rejecter (ex.nextId + 1) (RejecterFunc.finallyFail hid))
        (by rw [getS_setS_self _ _ _ (by simp [hi])])
      rw [runE_finallyFail] at h2
      exact ⟨_, h2, by simp⟩

/-- Witness for `finally_always_fires`: `Finally` on the fulfilled heap
`wFulfilledHeap` and on the rejected heap `wRejectedHeap`. -/
theorem finally_always_fires_witness :
    (∃ ex2, promiseFinally noF noG (0 + 2) 0 6 wFulfilledHeap = DRes.ok ex2 ∧
      ex2.log = wFulfilledHeap.log ++ [Event.finallyRun 6 none]) ∧
    (∃ ex2, promiseFinally noF noG (0 + 2) 0 6 wRejectedHeap = DRes.ok ex2 ∧
      ex2.log = wRejectedHeap.log ++
        [Event.finallyRun 6 ((wRejectedHeap.getS 0).e)]) := by
  constructor
  · exact (finally_always_fires noF noG 0 wFulfilledHeap 0 6 (by decide)).1
      [Val.ival 100, Val.sval "X"] (by decide) (by decide)
  · exact (finally_always_fires noF noG 0 wRejectedHeap 0 6
      (by decide)).2.1 (by decide)

/-- C6: for every Settlement State and registered continuation, dispatch is
synchronous and happens exactly once per settlement generation, inside
whichever call happens second:

* registering a continuation (`SetDone` / `SetFail` / `SetFunc`) on a pending
  state does not invoke it (no event is logged, the state only gains the
  slot);
* settling a state that holds a registered continuation invokes it
  synchronously inside the settling call, exactly once (exactly one event is
  appended), and consumes the generation (status back to pending, payload
  moved out), so the same settlement cannot dispatch again;
* registering a continuation on an already-settled state of the matching
  outcome invokes it synchronously inside the registering call, with the
  original payload, and likewise consumes the generation. -/
theorem dispatch_once_whichever_call_is_second (φ : FEnv) (γ : GEnv)
    (ex : Exec) (i : Nat) (hi : i < ex.heap.length) :
    ((ex.getS i).st = Status.pending →
      (∀ fuel d, stateSetDone φ γ fuel i d ex =
        DRes.ok (ex.setS i { ex.getS i with done := some d })) ∧
      (∀ fuel f, stateSetFail φ γ fuel i f ex =
        DRes.ok (ex.setS i { ex.getS i with fail := some f })) ∧
      (∀ fuel d f, stateSetFunc φ γ fuel i d f ex =
        DRes.ok (ex.setS i
          { ex.getS i with done := some d, fail := some f }))) ∧
    (∀ fuel rid uid v, (ex.getS i).done =
        some (Runnable.resolver rid (ResolverFunc.userDone uid)) →
      ∃ ex2, stateSetValue φ γ (fuel + 3) i v ex = DRes.ok ex2 ∧
        ex2.log = ex.log ++ [Event.doneRun uid v] ∧
        (ex2.getS i).st = Status.pending ∧ (ex2.getS i).value = none) ∧
    (∀ fuel rid uid e, (ex.getS i).fail =
        some (Runnable.rejecter rid (RejecterFunc.userFail uid)) →
      ∃ ex2, stateSetException φ γ (fuel + 3) i e ex = DRes.ok ex2 ∧
        ex2.log = ex.log ++ [Event.failRun uid e] ∧
        (ex2.getS i).st = Status.pending ∧ (ex2.getS i).e = none) ∧
    (∀ fuel rid uid v, (ex.getS i).st = Status.fulfilled →
        (ex.getS i).value = some v →
      ∃ ex2, stateSetDone φ γ (fuel + 2) i
          (Runnable.resolver rid (ResolverFunc.userDone uid)) ex =
            DRes.ok ex2 ∧
        ex2.log = ex.log ++ [Event.doneRun uid v] ∧
        (ex2.getS i).st = Status.pending ∧ (ex2.getS i).value = none) ∧
    (∀ fuel rid uid, (ex.getS i).st = Status.rejected →
      ∃ ex2, stateSetFail φ γ (fuel + 2) i
          (Runnable.rejecter rid (RejecterFunc.userFail uid)) ex =
            DRes.ok ex2 ∧
        ex2.log = ex.log ++ [Event.failRun uid ((ex.getS i).e)] ∧
        (ex2.getS i).st = Status.pending ∧ (ex2.getS i).e = none) := by
  refine ⟨?_, ?_, ?_, ?_, ?_⟩
  · intro hst
    refine ⟨?_, ?_, ?_⟩
    · intro fuel d
      exact setDone_not_fulfilled φ γ fuel ex i d (by rw [hst]; decide)
    · intro fuel f
      exact setFail_not_rejected φ γ fuel ex i f (by rw [hst]; decide)
    · intro fuel d f
      exact setFunc_pending φ γ fuel ex i d f hst
  · intro fuel rid uid v hdn
    have h := setValue_done φ γ (fuel + 2) ex i v _ hdn
    rw [runV_userDone] at h
    refine ⟨_, h, by simp, ?_, ?_⟩
    · rw [getS_logEv, getS_setS_self _ _ _ hi]
    · rw [getS_logEv, getS_setS_self _ _ _ hi]
  · intro fuel rid uid e hfl
    have h := setException_fail φ γ (fuel + 2) ex i e _ hfl
    rw [runE_userFail] at h
    refine ⟨_, h, by simp, ?_, ?_⟩
    · rw [getS_logEv, getS_setS_self _ _ _ hi]
    · rw [getS_logEv, getS_setS_self _ _ _ hi]
  · intro fuel rid uid v hst hv
    have h := setDone_fulfilled φ γ (fuel + 2) ex i
      (Runnable.resolver rid (ResolverFunc.userDone uid)) v hst hv
    rw [runV_userDone] at h
    refine ⟨_, h, by simp, ?_, ?_⟩
    · rw [getS_logEv, getS_setS_self _ _ _ hi]
    · rw [getS_logEv, getS_setS_self _ _ _ hi]
  · intro fuel rid uid hst
    have h := setFail_rejected φ γ (fuel + 2) ex i
      (Runnable.rejecter rid (RejecterFunc.userFail uid)) hst
    rw [runE_userFail] at h
    refine ⟨_, h, by simp, ?_, ?_⟩
    · rw [getS_logEv, getS_setS_self _ _ _ hi]
    · rw [getS_logEv, getS_setS_self _ _ _ hi]

/-- Witness for `dispatch_once_whichever_call_is_second`: a pending state
holding a registered external success continuation, then settled with `(7)`;
and the already-settled heaps. -/
theorem dispatch_once_whichever_call_is_second_witness :
    (∀ fuel d, stateSetDone noF noG fuel 0 d { heap := [{}] } =
      DRes.ok (Exec.setS { heap := [{}] } 0
        { Exec.getS { heap := [{}] } 0 with done := some d })) ∧
    (∃ ex2, stateSetDone noF noG (0 + 2) 0
        (Runnable.resolver 3 (ResolverFunc.userDone 9)) wFulfilledHeap =
          DRes.ok ex2 ∧
      ex2.log = wFulfilledHeap.log ++
        [Event.doneRun 9 [Val.ival 100, Val.sval "X"]] ∧
      (ex2.getS 0).st = Status.pending ∧ (ex2.getS 0).value = none) := by
  constructor
  · exact ((dispatch_once_whichever_call_is_second noF noG
      { heap := [{}] } 0 (by decide)).1 (by decide)).1
  · exact (dispatch_once_whichever_call_is_second noF noG
      wFulfilledHeap 0 (by decide)).2.2.2.1 0 3 9
      [Val.ival 100, Val.sval "X"] (by decide) (by decide)

/-- Counterexample to C7 as stated: double-settling an already-fulfilled
state via `State::SetValue` does not fire any contract assertion (the result
is `ok`, not a trap) and silently overwrites the previous outcome — the
stored bundle `(100, "X")` is replaced by `(2)`. -/
theorem double_settle_not_checked_counterexample :
    (wFulfilledHeap.getS 0).st = Status.fulfilled ∧
    (wFulfilledHeap.getS 0).value = some [Val.ival 100, Val.sval "X"] ∧
    stateSetValue noF noG 5 0 [Val.ival 2] wFulfilledHeap =
      DRes.ok { heap := [{ st := Status.fulfilled,
                           value := some [Val.ival 2] }] } := by decide

/-- C7 amended: settling a Settlement State whose status is not pending
(double-settling) is NOT signaled: `State::SetValue` / `State::SetException`
contain no status check, so the call silently overwrites the previous status
and payload (and, when a matching continuation is registered, dispatches it
again).  Stated for states with empty slots, where the overwrite is directly
observable. -/
theorem double_settle_overwrites (φ : FEnv) (γ : GEnv) (fuel : Nat)
    (ex : Exec) (i : Nat) (v : Bundle) (e2 : Option Err)
    (_hset : (ex.getS i).st ≠ Status.pending)
    (hdn : (ex.getS i).done = none) (hfl : (ex.getS i).fail = none) :
    stateSetValue φ γ (fuel + 1) i v ex =
      DRes.ok (ex.setS i
        { ex.getS i with st := Status.fulfilled, value := some v }) ∧
    stateSetException φ γ (fuel + 1) i e2 ex =
      DRes.ok (ex.setS i
        { ex.getS i with st := Status.rejected, e := e2 }) :=
  ⟨setValue_no_done φ γ fuel ex i v hdn,
   setException_no_fail φ γ fuel ex i e2 hfl⟩

/-- Witness for `double_settle_overwrites`: overwriting the fulfilled heap
`wFulfilledHeap`. -/
theorem double_settle_overwrites_witness :
    stateSetValue noF noG (4 + 1) 0 [Val.ival 2] wFulfilledHeap =
      DRes.ok (wFulfilledHeap.setS 0
        { wFulfilledHeap.getS 0 with st := Status.fulfilled,
                                     value := some [Val.ival 2] }) ∧
    stateSetException noF noG (4 + 1) 0 (some "late") wFulfilledHeap =
      DRes.ok (wFulfilledHeap.setS 0
        { wFulfilledHeap.getS 0 with st := Status.rejected,
                                     e := some "late" }) :=
  double_settle_overwrites noF noG 4 wFulfilledHeap 0 [Val.ival 2]
    (some "late") (by decide) (by decide) (by decide)

/-- No call in the settlement/dispatch recursion ever releases a
continuation: there is no `delete` anywhere in `SetValue` / `SetException` /
the closure bodies, so `freed` is unchanged by every successful dispatch. -/
theorem step_preserves_freed (φ : FEnv) (γ : GEnv) :
    ∀ (fuel : Nat) (c : Call) (ex ex2 : Exec),
      step φ γ fuel c ex = DRes.ok ex2 → ex2.freed = ex.freed := by
  intro fuel
  induction fuel with
  | zero =>
    intro c ex ex2 h
    simp [step] at h
  | succ n ih =>
    intro c ex ex2 h
    cases c with
    | setV i v =>
      simp only [step] at h
      split at h
      · split at h
        · exact (ih _ _ _ h).trans (setS_freed ..)
        · cases h
      · rw [DRes.ok.injEq] at h
        subst h
        exact setS_freed ..
    | setE i e =>
      simp only [step] at h
      split at h
      · exact (ih _ _ _ h).trans (setS_freed ..)
      · rw [DRes.ok.injEq] at h
        subst h
        exact setS_freed ..
    | runV r v =>
      simp only [step] at h
      split at h
      · exact ih _ _ _ h
      · cases h
    | runE r e =>
      simp only [step] at h
      split at h
      · cases h
      · exact ih _ _ _ h
    | resV f v =>
      simp only [step] at h
      split at h
      · split at h
        · cases h
        · exact (ih _ _ _ h).trans rfl
        · exact (ih _ _ _ h).trans rfl
        · rw [DRes.ok.injEq] at h
          subst h
          rfl
      · rw [DRes.ok.injEq] at h
        subst h
        rfl
      · rw [DRes.ok.injEq] at h
        subst h
        rfl
    | rejE f e =>
      simp only [step] at h
      split at h
      · exact ih _ _ _ h
      · split at h
        · cases h
        · exact (ih _ _ _ h).trans rfl
        · exact (ih _ _ _ h).trans rfl
        · rw [DRes.ok.injEq] at h
          subst h
          rfl
      · rw [DRes.ok.injEq] at h
        subst h
        rfl
      · rw [DRes.ok.injEq] at h
        subst h
        rfl

/-- A heap whose single state is rejected, holds a bundle, an error and two
registered continuations (allocation ids 7 and 8), for the `Reset` and
replacement counterexamples. -/
def wLoadedHeap : Exec :=
  { heap := [{ st := Status.rejected,
               done := some (Runnable.resolver 7 (ResolverFunc.userDone 0)),
               fail := some (Runnable.rejecter 8 (RejecterFunc.userFail 1)),
               value := some [Val.ival 5],
               e := some "x" }] }

/-- Counterexample to C8 as stated: `State::Reset` does not clear the stored
value bundle — after `Reset` on `wLoadedHeap`, the bundle `(5)` is still
stored (and observable through a later consuming read), while the claim
requires it to be cleared/absent.  (Also, `Reset` is invoked only by the
destructor; `SetDone` on a state with a registered continuation releases
nothing, as `register_replaces_without_release` shows.) -/
theorem reset_keeps_value_counterexample :
    ((stateReset wLoadedHeap 0).getS 0).value = some [Val.ival 5] ∧
    ¬ ((stateReset wLoadedHeap 0).getS 0).value = none := by decide

/-- C8 amended: after `Reset()` on any Settlement State, the status is
pending, both continuation slots are empty and the previously registered
continuations' resources have been released (their allocation ids are
appended to `freed`), and the stored error is cleared; the stored value
bundle is NOT cleared (it survives `Reset`).  `Reset` is invoked on
destruction of the state (`~State`), but NOT when continuations are
replaced: a successful `SetDone` / `SetFail` / `SetFunc` releases nothing. -/
theorem reset_spec (ex : Exec) (i : Nat) (hi : i < ex.heap.length) :
    (stateReset ex i).getS i =
      { st := Status.pending, done := none, fail := none,
        value := (ex.getS i).value, e := none } ∧
    (stateReset ex i).freed =
      ex.freed ++ ((ex.getS i).done.map Runnable.rid).toList
               ++ ((ex.getS i).fail.map Runnable.rid).toList ∧
    stateDestroy ex i = stateReset ex i ∧
    (∀ φ γ fuel d ex2, stateSetDone φ γ fuel i d ex = DRes.ok ex2 →
      ex2.freed = ex.freed) ∧
    (∀ φ γ fuel f ex2, stateSetFail φ γ fuel i f ex = DRes.ok ex2 →
      ex2.freed = ex.freed) ∧
    (∀ φ γ fuel d f ex2, stateSetFunc φ γ fuel i d f ex = DRes.ok ex2 →
      ex2.freed = ex.freed) := by
  refine ⟨?_, ?_, rfl, ?_, ?_, ?_⟩
  · simp only [stateReset]
    rw [getS_setS_self _ _ _ (by simpa using hi)]
  · simp [stateReset]
  · intro φ γ fuel d ex2 h
    unfold stateSetDone runSetValue at h
    dsimp only at h
    split at h
    · split at h
      · exact (step_preserves_freed φ γ _ _ _ _ h).trans (setS_freed ..)
      · cases h
    · rw [DRes.ok.injEq] at h
      subst h
      exact setS_freed ..
  · intro φ γ fuel f ex2 h
    unfold stateSetFail runSetException at h
    dsimp only at h
    split at h
    · exact (step_preserves_freed φ γ _ _ _ _ h).trans (setS_freed ..)
    · rw [DRes.ok.injEq] at h
      subst h
      exact setS_freed ..
  · intro φ γ fuel d f ex2 h
    unfold stateSetFunc runSetValue runSetException at h
    dsimp only at h
    split at h
    · split at h
      · exact (step_preserves_freed φ γ _ _ _ _ h).trans (setS_freed ..)
      · cases h
    · exact (step_preserves_freed φ γ _ _ _ _ h).trans (setS_freed ..)
    · rw [DRes.ok.injEq] at h
      subst h
      exact setS_freed ..

/-- Witness for `reset_spec`: `Reset` on the loaded heap frees allocation
ids 7 and 8. -/
theorem reset_spec_witness :
    (stateReset wLoadedHeap 0).getS 0 =
      { st := Status.pending, done := none, fail := none,
        value := (wLoadedHeap.getS 0).value, e := none } ∧
    (stateReset wLoadedHeap 0).freed = [7, 8] := by
  have h := reset_spec wLoadedHeap 0 (by decide)
  exact ⟨h.1, h.2.1.trans (by decide)⟩

/-- The heap after the replacement in
`replace_no_release_counterexample`. -/
def wReplacedHeap : Exec :=
  { heap := [{ st := Status.pending,
               done := some (Runnable.resolver 9
                 (ResolverFunc.userDone 2)) }] }

/-- Counterexample to C9 as stated: registering a new success continuation
(allocation id 8) on a state whose success slot already holds the
continuation with allocation id 7 overwrites the slot, but the previous
continuation's resources are NOT released before the new one is stored:
`freed` stays empty, so the old continuation is leaked. -/
theorem replace_no_release_counterexample :
    ∃ ex2, stateSetDone noF noG 3 0
        (Runnable.resolver 9 (ResolverFunc.userDone 2))
        { heap := [{ st := Status.pending,
                     done := some (Runnable.resolver 7
                       (ResolverFunc.userDone 0)) }] } = DRes.ok ex2 ∧
      (ex2.getS 0).done = some (Runnable.resolver 9
        (ResolverFunc.userDone 2)) ∧
      ex2.freed = [] := by
  refine ⟨wReplacedHeap, ?_, ?_, ?_⟩ <;> decide

/-- C9 amended: every Settlement State holds at most one success and at most
one failure continuation (one `Option` slot each); registering via
`SetDone` / `SetFail` / `SetFunc` replaces the previous registration; but
the previous continuation's resources are NOT released on replacement —
nothing is ever freed by the registration calls (the old continuation is
leaked; release happens only through `Reset`/destruction). -/
theorem register_replaces_without_release (φ : FEnv) (γ : GEnv) (fuel : Nat)
    (ex : Exec) (i : Nat) (d f : Runnable) (hi : i < ex.heap.length)
    (hst : (ex.getS i).st = Status.pending) :
    (∃ ex2, stateSetDone φ γ fuel i d ex = DRes.ok ex2 ∧
      (ex2.getS i).done = some d ∧ (ex2.getS i).fail = (ex.getS i).fail ∧
      ex2.freed = ex.freed) ∧
    (∃ ex2, stateSetFail φ γ fuel i f ex = DRes.ok ex2 ∧
      (ex2.getS i).fail = some f ∧ (ex2.getS i).done = (ex.getS i).done ∧
      ex2.freed = ex.freed) ∧
    (∃ ex2, stateSetFunc φ γ fuel i d f ex = DRes.ok ex2 ∧
      (ex2.getS i).done = some d ∧ (ex2.getS i).fail = some f ∧
      ex2.freed = ex.freed) := by
  refine ⟨?_, ?_, ?_⟩
  · have h := setDone_not_fulfilled φ γ fuel ex i d (by rw [hst]; decide)
    refine ⟨_, h, ?_, ?_, by simp⟩
    · rw [getS_setS_self _ _ _ hi]
    · rw [getS_setS_self _ _ _ hi]
  · have h := setFail_not_rejected φ γ fuel ex i f (by rw [hst]; decide)
    refine ⟨_, h, ?_, ?_, by simp⟩
    · rw [getS_setS_self _ _ _ hi]
    · rw [getS_setS_self _ _ _ hi]
  · have h := setFunc_pending φ γ fuel ex i d f hst
    refine ⟨_, h, ?_, ?_, by simp⟩
    · rw [getS_setS_self _ _ _ hi]
    · rw [getS_setS_self _ _ _ hi]

/-- Witness for `register_replaces_without_release`: replacing the success
continuation on a pending one-state heap. -/
theorem register_replaces_without_release_witness :
    ∃ ex2, stateSetDone noF noG 2 0
        (Runnable.resolver 9 (ResolverFunc.userDone 2))
        { heap := [{ st := Status.pending,
                     done := some (Runnable.resolver 4
                       (ResolverFunc.userDone 3)) }] } = DRes.ok ex2 ∧
      (ex2.getS 0).done = some (Runnable.resolver 9
        (ResolverFunc.userDone 2)) ∧
      (ex2.getS 0).fail = (Exec.getS { heap :=
        [{ st := Status.pending,
           done := some (Runnable.resolver 4
             (ResolverFunc.userDone 3)) }] } 0).fail ∧
      ex2.freed = Exec.freed { heap :=
        [{ st := Status.pending,
           done := some (Runnable.resolver 4
             (ResolverFunc.userDone 3)) }] } :=
  (register_replaces_without_release noF noG 2 _ 0
    (Runnable.resolver 9 (ResolverFunc.userDone 2))
    (Runnable.rejecter 9 (RejecterFunc.userFail 2)) (by decide)
    (by decide)).1

/-!
## The slot invariant: success slots hold Resolvers, failure slots Rejecters
-/

/-- A success slot is well-sided when it is empty or holds a `Resolver`. -/
def doneOK : Option Runnable → Bool
  | some r => r.isResolver
  | none => true

/-- A failure slot is well-sided when it is empty or holds a `Rejecter`. -/
def failOK : Option Runnable → Bool
  | some r => r.isRejecter
  | none => true

/-- Both slots of a state are well-sided. -/
def slotOK (s : State) : Bool := doneOK s.done && failOK s.fail

/-- Every state on the heap is well-sided. -/
def WS (ex : Exec) : Prop := ∀ s ∈ ex.heap, slotOK s = true

theorem doneOK_of_slotOK {s : State} (h : slotOK s = true) :
    doneOK s.done = true := by
  simp only [slotOK, Bool.and_eq_true] at h
  exact h.1

theorem failOK_of_slotOK {s : State} (h : slotOK s = true) :
    failOK s.fail = true := by
  simp only [slotOK, Bool.and_eq_true] at h
  exact h.2

theorem mem_of_getElem_eq_some {α : Type} {l : List α} {i : Nat} {a : α}
    (h : l[i]? = some a) : a ∈ l := by
  have hi : i < l.length := by
    by_contra hc
    rw [List.getElem?_eq_none (Nat.le_of_not_lt hc)] at h
    cases h
  rw [List.getElem?_eq_getElem hi, Option.some_inj] at h
  exact h ▸ List.getElem_mem hi

theorem ws_getS {ex : Exec} (hws : WS ex) (i : Nat) :
    slotOK (ex.getS i) = true := by
  unfold Exec.getS List.getD
  rw [List.get?_eq_getElem?]
  cases h : ex.heap[i]? with
  | none => rfl
  | some s => exact hws s (mem_of_getElem_eq_some h)

theorem ws_setS {ex : Exec} {i : Nat} {s : State} (hws : WS ex)
    (hs : slotOK s = true) : WS (ex.setS i s) := by
  intro x hx
  rcases List.mem_or_eq_of_mem_set hx with h | h
  · exact hws x h
  · rw [h]
    exact hs

theorem ws_newState {ex : Exec} (hws : WS ex) : WS (newState ex) := by
  intro x hx
  rcases List.mem_append.mp hx with h | h
  · exact hws x h
  · rw [List.mem_singleton.mp h]
    rfl

/-- The side condition a dispatch call must satisfy: a `Runnable::SetValue`
call is made on a `Resolver`, a `Runnable::SetException` call on a
`Rejecter`. -/
def callOK : Call → Prop
  | Call.runV r _ => r.isResolver = true
  | Call.runE r _ => r.isRejecter = true
  | _ => True

/-- Master lemma: starting from a well-sided heap, the settlement/dispatch
recursion never reaches either `assert(0)` branch (`Resolver::SetException` /
`Rejecter::SetValue`), and every successful run leaves the heap
well-sided (dispatch never writes a continuation slot). -/
theorem step_no_trap (φ : FEnv) (γ : GEnv) :
    ∀ (fuel : Nat) (c : Call) (ex : Exec), WS ex → callOK c →
      step φ γ fuel c ex ≠ DRes.trap ∧
      (∀ ex2, step φ γ fuel c ex = DRes.ok ex2 → WS ex2) := by
  intro fuel
  induction fuel with
  | zero =>
    intro c ex _ _
    refine ⟨by simp [step], ?_⟩
    intro ex2 h
    simp [step] at h
  | succ n ih =>
    intro c ex hws hok
    cases c with
    | setV i v =>
      simp only [step, State.get_value]
      split
      next d heq =>
        refine ih (Call.runV d v) _ (ws_setS hws (ws_getS hws i)) ?_
        have hd := doneOK_of_slotOK (ws_getS hws i)
        rw [heq] at hd
        exact hd
      next heq =>
        refine ⟨by simp, ?_⟩
        intro ex2 h
        rw [DRes.ok.injEq] at h
        subst h
        exact ws_setS hws (ws_getS hws i)
    | setE i e =>
      simp only [step, State.get_exception]
      split
      next f heq =>
        refine ih (Call.runE f _) _ (ws_setS hws (ws_getS hws i)) ?_
        have hf := failOK_of_slotOK (ws_getS hws i)
        rw [heq] at hf
        exact hf
      next heq =>
        refine ⟨by simp, ?_⟩
        intro ex2 h
        rw [DRes.ok.injEq] at h
        subst h
        exact ws_setS hws (ws_getS hws i)
    | runV r v =>
      cases r with
      | resolver rid f =>
        exact ih (Call.resV f v) ex hws trivial
      | rejecter rid f =>
        exact absurd hok (by simp [callOK, Runnable.isResolver])
    | runE r e =>
      cases r with
      | resolver rid f =>
        exact absurd hok (by simp [callOK, Runnable.isRejecter])
      | rejecter rid f =>
        exact ih (Call.rejE f e) ex hws trivial
    | resV f v =>
      cases f with
      | thenDone fid j =>
        simp only [step]
        split
        next heq => exact ⟨by simp, fun ex2 h => by cases h⟩
        next w heq => exact ih (Call.setV j w) _ hws trivial
        next e2 heq => exact ih (Call.setE j e2) _ hws trivial
        next heq =>
          refine ⟨by simp, ?_⟩
          intro ex2 h
          rw [DRes.ok.injEq] at h
          subst h
          exact hws
      | finallyDone hid =>
        refine ⟨by simp [step], ?_⟩
        intro ex2 h
        simp only [step, DRes.ok.injEq] at h
        subst h
        exact hws
      | userDone uid =>
        refine ⟨by simp [step], ?_⟩
        intro ex2 h
        simp only [step, DRes.ok.injEq] at h
        subst h
        exact hws
    | rejE f e =>
      cases f with
      | thenFail j =>
        exact ih (Call.setE j e) ex hws trivial
      | excFail gid j =>
        simp only [step]
        split
        next heq => exact ⟨by simp, fun ex2 h => by cases h⟩
        next w heq => exact ih (Call.setV j w) _ hws trivial
        next e2 heq => exact ih (Call.setE j e2) _ hws trivial
        next heq =>
          refine ⟨by simp, ?_⟩
          intro ex2 h
          rw [DRes.ok.injEq] at h
          subst h
          exact hws
      | finallyFail hid =>
        refine ⟨by simp [step], ?_⟩
        intro ex2 h
        simp only [step, DRes.ok.injEq] at h
        subst h
        exact hws
      | userFail uid =>
        refine ⟨by simp [step], ?_⟩
        intro ex2 h
        simp only [step, DRes.ok.injEq] at h
        subst h
        exact hws

/-- C++ `State::SetFunc` with a `Resolver` in the success slot and a `Rejecter`
in the failure slot never traps and keeps the heap well-sided. -/
theorem setFunc_no_trap (φ : FEnv) (γ : GEnv) (fuel : Nat) (ex : Exec)
    (i : Nat) (d f : Runnable) (hws : WS ex) (hd : d.isResolver = true)
    (hf : f.isRejecter = true) :
    stateSetFunc φ γ fuel i d f ex ≠ DRes.trap ∧
    (∀ ex2, stateSetFunc φ γ fuel i d f ex = DRes.ok ex2 → WS ex2) := by
  have hsl : slotOK { ex.getS i with done := some d, fail := some f } =
      true := by
    simp [slotOK, doneOK, failOK, hd, hf]
  unfold stateSetFunc runSetValue runSetException
  dsimp only [State.get_value, State.get_exception]
  split
  · split
    · exact step_no_trap φ γ fuel _ _ (ws_setS hws hsl) hd
    · exact ⟨by simp, fun ex2 h => by cases h⟩
  · exact step_no_trap φ γ fuel _ _ (ws_setS hws hsl) hf
  · refine ⟨by simp, ?_⟩
    intro ex2 h
    rw [DRes.ok.injEq] at h
    subst h
    exact ws_setS hws hsl

/-- C++ `State::SetFail` with a `Rejecter` never traps and keeps the heap
well-sided. -/
theorem setFail_no_trap (φ : FEnv) (γ : GEnv) (fuel : Nat) (ex : Exec)
    (i : Nat) (f : Runnable) (hws : WS ex) (hf : f.isRejecter = true) :
    stateSetFail φ γ fuel i f ex ≠ DRes.trap ∧
    (∀ ex2, stateSetFail φ γ fuel i f ex = DRes.ok ex2 → WS ex2) := by
  have hsl : slotOK { ex.getS i with fail := some f } = true := by
    have := doneOK_of_slotOK (ws_getS hws i)
    simp [slotOK, doneOK, failOK, hf]
    simpa [doneOK] using this
  unfold stateSetFail runSetException
  dsimp only [State.get_exception]
  split
  · exact step_no_trap φ γ fuel _ _ (ws_setS hws hsl) hf
  · refine ⟨by simp, ?_⟩
    intro ex2 h
    rw [DRes.ok.injEq] at h
    subst h
    exact ws_setS hws hsl

/-- C++ `State::SetDone` with a `Resolver` never traps and keeps the heap
well-sided. -/
theorem setDone_no_trap (φ : FEnv) (γ : GEnv) (fuel : Nat) (ex : Exec)
    (i : Nat) (d : Runnable) (hws : WS ex) (hd : d.isResolver = true) :
    stateSetDone φ γ fuel i d ex ≠ DRes.trap ∧
    (∀ ex2, stateSetDone φ γ fuel i d ex = DRes.ok ex2 → WS ex2) := by
  have hsl : slotOK { ex.getS i with done := some d } = true := by
    have := failOK_of_slotOK (ws_getS hws i)
    simp [slotOK, doneOK, failOK, hd]
    simpa [failOK] using this
  unfold stateSetDone runSetValue
  dsimp only [State.get_value]
  split
  · split
    · exact step_no_trap φ γ fuel _ _ (ws_setS hws hsl) hd
    · exact ⟨by simp, fun ex2 h => by cases h⟩
  · refine ⟨by simp, ?_⟩
    intro ex2 h
    rw [DRes.ok.injEq] at h
    subst h
    exact ws_setS hws hsl

/-- C10: for every chain built through the public API (the factories,
`Deffered` settling, `Then`, `Exception`, `Finally`), starting from a
well-sided heap (success slots hold `Resolver`s, failure slots `Rejecter`s —
true in particular of the empty heap), no operation ever reaches the
trapping branches `Resolver::SetException` or `Rejecter::SetValue`
(`assert(0)`), and each operation preserves well-sidedness, so the
assertions stay unreachable along any chain of API calls. -/
theorem api_never_reaches_asserts (φ : FEnv) (γ : GEnv) (fuel : Nat)
    (ex : Exec) (hws : WS ex) :
    (∀ i fid, promiseThen φ γ fuel i fid ex ≠ DRes.trap ∧
      ∀ ex2, promiseThen φ γ fuel i fid ex = DRes.ok ex2 → WS ex2) ∧
    (∀ i gid, promiseException φ γ fuel i gid ex ≠ DRes.trap ∧
      ∀ ex2, promiseException φ γ fuel i gid ex = DRes.ok ex2 → WS ex2) ∧
    (∀ i hid, promiseFinally φ γ fuel i hid ex ≠ DRes.trap ∧
      ∀ ex2, promiseFinally φ γ fuel i hid ex = DRes.ok ex2 → WS ex2) ∧
    (∀ v, makeReadyPromise φ γ fuel v ex ≠ DRes.trap ∧
      ∀ ex2, makeReadyPromise φ γ fuel v ex = DRes.ok ex2 → WS ex2) ∧
    (∀ e, makeException φ γ fuel e ex ≠ DRes.trap ∧
      ∀ ex2, makeException φ γ fuel e ex = DRes.ok ex2 → WS ex2) ∧
    (∀ i v, defferedSetValue φ γ fuel i v ex ≠ DRes.trap ∧
      ∀ ex2, defferedSetValue φ γ fuel i v ex = DRes.ok ex2 → WS ex2) ∧
    (∀ i e, defferedSetException φ γ fuel i e ex ≠ DRes.trap ∧
      ∀ ex2, defferedSetException φ γ fuel i e ex = DRes.ok ex2 → WS ex2) := by
  refine ⟨?_, ?_, ?_, ?_, ?_, ?_, ?_⟩
  · intro i fid
    exact setFunc_no_trap φ γ fuel _ i _ _ (ws_newState hws) rfl rfl
  · intro i gid
    exact setFail_no_trap φ γ fuel _ i _ (ws_newState hws) rfl
  · intro i hid
    exact setFunc_no_trap φ γ fuel _ i _ _ hws rfl rfl
  · intro v
    exact step_no_trap φ γ fuel _ _ (ws_newState hws) trivial
  · intro e
    exact step_no_trap φ γ fuel _ _ (ws_newState hws) trivial
  · intro i v
    exact step_no_trap φ γ fuel _ _ hws trivial
  · intro i e
    exact step_no_trap φ γ fuel _ _ hws trivial

/-- Witness for `api_never_reaches_asserts`: the empty heap is well-sided,
and a `Then` on it does not trap. -/
theorem api_never_reaches_asserts_witness :
    promiseThen noF noG 4 0 1 {} ≠ DRes.trap :=
  ((api_never_reaches_asserts noF noG 4 {} (by intro s hs; cases hs)).1
    0 1).1

end PromiseSpec
